import Mathlib

/-
Verification of the Wear-Search backend core: a shallow embedding in Lean of
the query-refinement algorithms (app/rocchio.py, app/query_composer.py), the
Faiss-backed vector store (app/vector_store.py), the session bookkeeping
(app/session_manager.py) and the orchestration performed by the FastAPI
endpoints (app/main.py).  Numpy float arrays are modelled as lists of real
numbers; numpy elementwise operations become zipWith and map; the Faiss
inner-product flat index becomes an explicit score-and-sort model; Python
dictionaries keyed by strings become functions from String to Option.
-/

namespace WearSearch

/-! ### Vector arithmetic (numpy 1-D operations over ℝ) -/

/-- A numpy 1-D float array, modelled as a list of reals. -/
abbrev Vec := List ℝ

/-- Elementwise addition, numpy v + w. -/
def vadd (v w : Vec) : Vec := List.zipWith (· + ·) v w

/-- Elementwise subtraction, numpy v - w. -/
def vsub (v w : Vec) : Vec := List.zipWith (· - ·) v w

/-- Scalar multiplication, numpy c * v. -/
def smul (c : ℝ) (v : Vec) : Vec := v.map (fun x => c * x)

/-- Inner product, numpy np.dot(v, w). -/
def dot (v w : Vec) : ℝ := (List.zipWith (· * ·) v w).sum

/-- Sum of squares of the entries: the square of the Euclidean norm. -/
def sumSq (v : Vec) : ℝ := dot v v

/-- Euclidean norm, numpy np.linalg.norm(v). -/
noncomputable def vnorm (v : Vec) : ℝ := Real.sqrt (sumSq v)

/-- Sum of a list of vectors of a common dimension (numpy np.sum(vs, axis=0));
the empty case yields the empty array. -/
def vsum (vs : List Vec) : Vec :=
  match vs with
  | [] => []
  | v :: rest => rest.foldl vadd v

/-- Mean of a list of vectors, numpy np.mean(vs, axis=0). -/
noncomputable def vmean (vs : List Vec) : Vec := smul ((vs.length : ℝ))⁻¹ (vsum vs)

/-- Normalization guarded by a positive-norm test: divide by the norm when it
is positive, otherwise return the vector unchanged.  This is the pattern
`if norm > 0: v = v / norm` of rocchio.py lines 81-83 and of
QueryComposer._normalize. -/
noncomputable def normalize (v : Vec) : Vec :=
  if 0 < vnorm v then smul (vnorm v)⁻¹ v else v

/-! ### RocchioAlgorithm (app/rocchio.py)

The class carries fixed weights alpha, beta, gamma; the embedding passes them
as explicit parameters. -/

/-- RocchioAlgorithm.refine_query (rocchio.py lines 42-85).  Starts from
alpha * query, adds beta times the centroid of the relevant vectors when that
argument is present and non-empty, subtracts gamma times the centroid of the
non-relevant vectors when present and non-empty, blends an optional text
modification vector, and finally normalizes (returning the vector unchanged
when its norm is not positive). -/
noncomputable def refine_query (alpha beta gamma : ℝ) (query_vector : Vec)
    (relevant_vectors non_relevant_vectors : Option (List Vec))
    (text_modification_vector : Option Vec) (text_weight : ℝ) : Vec :=
  let refined0 := smul alpha query_vector
  let refined1 := match relevant_vectors with
    | some (v :: vs) => vadd refined0 (smul beta (vmean (v :: vs)))
    | _ => refined0
  let refined2 := match non_relevant_vectors with
    | some (v :: vs) => vsub refined1 (smul gamma (vmean (v :: vs)))
    | _ => refined1
  let refined3 := match text_modification_vector with
    | some t => vadd (smul (1 - text_weight) refined2) (smul text_weight t)
    | none => refined2
  normalize refined3

/-- RocchioAlgorithm.pseudo_relevance_feedback (rocchio.py lines 87-117).
Takes the first top_m retrieved vectors as the assumed-relevant set (the whole
list when it is shorter than top_m) and delegates to refine_query with no
non-relevant set, no text modification, and the default text weight 0.3. -/
noncomputable def pseudo_relevance_feedback (alpha beta gamma : ℝ)
    (query_vector : Vec) (top_vectors : List Vec) (top_m : ℕ) : Vec :=
  let relevant_vectors :=
    if top_m ≤ top_vectors.length then top_vectors.take top_m else top_vectors
  refine_query alpha beta gamma query_vector (some relevant_vectors) none none 0.3

/-- The pre-normalization Rocchio combination written from the words of the
specification: refined = alpha * query, plus beta times the mean of the
relevant vectors when that set is non-empty, minus gamma times the mean of
the non-relevant vectors when that set is non-empty.  Used to compare the
source implementation against the specified formula. -/
noncomputable def specRocchioPreNorm (alpha beta gamma : ℝ) (query : Vec)
    (relevant nonRelevant : List Vec) : Vec :=
  let r1 := if relevant.isEmpty then smul alpha query
            else vadd (smul alpha query) (smul beta (vmean relevant))
  if nonRelevant.isEmpty then r1 else vsub r1 (smul gamma (vmean nonRelevant))

/-! ### QueryComposer (app/query_composer.py) -/

/-- QueryComposer._additive_compose: q + lambda * t. -/
def additive_compose (additive_lambda : ℝ) (query text : Vec) : Vec :=
  vadd query (smul additive_lambda text)

/-- QueryComposer._interpolation_compose: (1 - alpha) * q + alpha * t. -/
def interpolation_compose (interpolation_alpha : ℝ) (query text : Vec) : Vec :=
  vadd (smul (1 - interpolation_alpha) query) (smul interpolation_alpha text)

/-- The component injected by residual composition: the text vector minus its
projection onto the query direction, query_composer.py lines 139-143. -/
def residual_injected (text query : Vec) : Vec :=
  vsub text (smul (dot text query) query)

/-- QueryComposer._residual_compose (query_composer.py lines 124-146):
q + strength * (t - (t . q) q). -/
def residual_compose (residual_strength : ℝ) (query text : Vec) : Vec :=
  vadd query (smul residual_strength (residual_injected text query))

/-- The un-clipped attention weights of QueryComposer._attention_compose
(query_composer.py lines 163-169): exp(|t_i| / T) divided by the sum of all
such terms and scaled by the dimension, so that the weights have mean 1. -/
noncomputable def raw_attention_weights (temperature : ℝ) (text : Vec) : Vec :=
  let e := text.map (fun x => Real.exp (|x| / temperature))
  e.map (fun x => x / e.sum * (text.length : ℝ))

/-- The attention weights after np.clip(w, 0.5, 2.0)
(query_composer.py line 172). -/
noncomputable def attention_weights (temperature : ℝ) (text : Vec) : Vec :=
  (raw_attention_weights temperature text).map (fun x => min (max x 0.5) 2)

/-- The per-dimension text influence (query_composer.py line 176):
(w - 1) / 2 + 0.5. -/
noncomputable def text_influence (temperature : ℝ) (text : Vec) : Vec :=
  (attention_weights temperature text).map (fun w => (w - 1) / 2 + 0.5)

/-- QueryComposer._attention_compose (query_composer.py lines 148-180):
composed_i = (1 - influence_i) * q_i + influence_i * t_i. -/
noncomputable def attention_compose (temperature : ℝ) (query text : Vec) : Vec :=
  List.zipWith (fun p ti => (1 - p.1) * p.2 + p.1 * ti)
    ((text_influence temperature text).zip query) text

/-! ### VectorStore (app/vector_store.py)

The Faiss IndexFlatIP is modelled by the list of stored vectors together with
an explicit score-sort-take description of index.search; the metadata
dictionary id_to_idx becomes a function from String to Option ℕ, and the
images list becomes a list of entries. -/

/-- One element of the metadata "images" list of the store. -/
structure ImageEntry where
  image_id : String
  filename : String
  idx : ℕ
  metadata : List (String × String)

instance : Inhabited ImageEntry := ⟨⟨"", "", 0, []⟩⟩

/-- The mutable state of the VectorStore singleton: the vectors held by the
Faiss index (in slot order), the metadata images list, and the id_to_idx
dictionary. -/
structure Store where
  vecs : List Vec
  images : List ImageEntry
  idToIdx : String → Option ℕ

/-- The sequential dictionary assignments of the loop in add_vectors
(vector_store.py lines 94-96): for the i-th (id, filename) pair, set
id_to_idx[id] := start + i.  A later assignment to the same key overrides an
earlier one, exactly as for a Python dict. -/
def assignSlots (m : String → Option ℕ) (pairs : List (String × String))
    (start : ℕ) : String → Option ℕ :=
  match pairs with
  | [] => m
  | (imgId, _) :: rest =>
    assignSlots (fun s => if s = imgId then some start else m s) rest (start + 1)

/-- The entries appended to the images list by the loop in add_vectors
(vector_store.py lines 94-102). -/
def makeEntries (pairs : List (String × String)) (start : ℕ)
    (metadata_list : Option (List (List (String × String)))) : List ImageEntry :=
  pairs.enum.map (fun p =>
    { image_id := p.2.1
      filename := p.2.2
      idx := start + p.1
      metadata := match metadata_list with
        | some ms => ms.getD p.1 []
        | none => [] })

/-- VectorStore.add_vectors (vector_store.py lines 67-102): normalize each
incoming vector, append the batch to the index starting at the current ntotal
slot, and record metadata and id-to-slot assignments for each (id, filename)
pair.  There is no duplicate-id check of any kind. -/
noncomputable def add_vectors (st : Store) (vectors : List Vec)
    (image_ids filenames : List String)
    (metadata_list : Option (List (List (String × String)))) : Store :=
  let nvecs := vectors.map (fun v => smul (vnorm v)⁻¹ v)
  let start := st.vecs.length
  let pairs := image_ids.zip filenames
  { vecs := st.vecs ++ nvecs
    images := st.images ++ makeEntries pairs start metadata_list
    idToIdx := assignSlots st.idToIdx pairs start }

/-- The Faiss IndexFlatIP scores for a query against every stored slot: the
inner product of the query with the vector at each slot. -/
noncomputable def searchScored (st : Store) (q : Vec) : List (ℕ × ℝ) :=
  (List.range st.vecs.length).map (fun i => (i, dot q (st.vecs.getD i [])))

/-- The (slot, score) pairs returned by index.search(q, k) with k already
clamped to ntotal (vector_store.py lines 127-128): all slots ranked by
non-increasing score, truncated to the clamped k.  Faiss breaks ties in an
engine-stable way; the model uses the stable merge sort, which keeps equal
scores in slot order. -/
noncomputable def searchRanked (st : Store) (q : Vec) (top_k : ℕ) : List (ℕ × ℝ) :=
  ((searchScored st q).mergeSort (fun a b => decide (b.2 ≤ a.2))).take
    (min top_k st.vecs.length)

/-- The result rows kept by the loop of vector_store.py lines 134-139: the
slot must fall inside the images list (slots are naturals here, so the
idx >= 0 half of the check always holds). -/
noncomputable def searchKept (st : Store) (q : Vec) (top_k : ℕ) : List (ℕ × ℝ) :=
  (searchRanked st q top_k).filter (fun p => decide (p.1 < st.images.length))

/-- VectorStore.search (vector_store.py lines 104-141).  Empty index: return
three empty lists.  Otherwise normalize the query by dividing by its norm,
rank the slots by descending inner-product score, and build the parallel
result lists (image_ids, scores, metadata entries). -/
noncomputable def search (st : Store) (query_vector : Vec) (top_k : ℕ) :
    List String × List ℝ × List ImageEntry :=
  if st.vecs.length = 0 then ([], [], [])
  else
    let q := smul (vnorm query_vector)⁻¹ query_vector
    ((searchKept st q top_k).map (fun p => (st.images.getD p.1 default).image_id),
     (searchKept st q top_k).map (fun p => p.2),
     (searchKept st q top_k).map (fun p => st.images.getD p.1 default))

/-- VectorStore.get_vector (vector_store.py lines 143-158): look the id up in
id_to_idx and reconstruct the stored vector at that slot. -/
def get_vector (st : Store) (image_id : String) : Option Vec :=
  match st.idToIdx image_id with
  | none => none
  | some idx => st.vecs.get? idx

/-- VectorStore.get_vectors (vector_store.py lines 160-175): resolve each id,
skipping the ones that are not found. -/
def get_vectors (st : Store) (image_ids : List String) : List Vec :=
  image_ids.filterMap (get_vector st)

/-! ### SessionManager (app/session_manager.py)

Sessions are modelled individually; the manager dictionary lookup appears as
an Option Session argument where an endpoint needs it.  Timestamps are
dropped: no claim mentions them. -/

/-- The SearchIteration dataclass (session_manager.py lines 13-23). -/
structure SearchIteration where
  iteration : ℕ
  query_vector : Vec
  query_type : String
  results : List String
  positive_feedback : List String
  negative_feedback : List String
  text_feedback : Option String

instance : Inhabited SearchIteration := ⟨⟨0, [], "", [], [], [], none⟩⟩

/-- The Session dataclass (session_manager.py lines 26-49). -/
structure Session where
  session_id : String
  iterations : List SearchIteration

/-- Session.current_query_vector: the query vector of the last iteration. -/
def current_query_vector (s : Session) : Option Vec :=
  (s.iterations.getLast?).map (fun it => it.query_vector)

/-- SessionManager.add_iteration (session_manager.py lines 97-127) on a
session that exists: build an iteration numbered len(iterations) + 1, append
it, and return the new session together with the iteration number. -/
def add_iteration (s : Session) (query_vector : Vec) (query_type : String)
    (results : List String) (positive_feedback negative_feedback : List String)
    (text_feedback : Option String) : Session × ℕ :=
  let it : SearchIteration :=
    { iteration := s.iterations.length + 1
      query_vector := query_vector
      query_type := query_type
      results := results
      positive_feedback := positive_feedback
      negative_feedback := negative_feedback
      text_feedback := text_feedback }
  ({ s with iterations := s.iterations ++ [it] }, it.iteration)

/-- SessionManager.update_last_iteration_feedback (session_manager.py lines
129-142): when the session has iterations, overwrite the feedback fields of
the last one; otherwise do nothing. -/
def update_last_iteration_feedback (s : Session)
    (positive_ids negative_ids : List String) (text_feedback : Option String) :
    Session :=
  if s.iterations.isEmpty then s
  else
    { s with iterations := s.iterations.dropLast ++
        [{ s.iterations.getLastD default with
            positive_feedback := positive_ids
            negative_feedback := negative_ids
            text_feedback := text_feedback }] }

/-- SessionManager.get_query_vectors_2d (session_manager.py lines 144-188).
The PCA fit-and-transform pair is the external dimensionality reducer, passed
as a function from the fitting set and the set to project to 2-D points.
Missing session or empty iteration list: empty result.  A single query
vector: one point at the origin labelled iteration 1, reducer unused.
Otherwise fit on the query vectors (plus reference vectors when supplied and
non-empty), project the query vectors, and label them 1, 2, ... -/
def get_query_vectors_2d (reducer : List Vec → List Vec → List (ℝ × ℝ))
    (session : Option Session) (reference_vectors : Option (List Vec)) :
    List (ℝ × ℝ × ℕ) :=
  match session with
  | none => []
  | some s =>
    if s.iterations.isEmpty then []
    else
      let query_vectors := s.iterations.map (fun it => it.query_vector)
      if query_vectors.length < 2 then [(0, 0, 1)]
      else
        let all_vectors := match reference_vectors with
          | some rv => if 0 < rv.length then query_vectors ++ rv else query_vectors
          | none => query_vectors
        (reducer all_vectors query_vectors).enum.map
          (fun p => (p.2.1, p.2.2, p.1 + 1))

/-- A freshly created session (SessionManager.create_session): empty
iteration list. -/
def empty_session (session_id : String) : Session := ⟨session_id, []⟩

/-! ### Endpoint orchestration (app/main.py) -/

/-- The session mutation performed by the /feedback/relevance endpoint
(main.py lines 240-262): first update_last_iteration_feedback with the
feedback of this round, then add_iteration for the new round. -/
def relevance_feedback_record (s : Session) (refined_query : Vec)
    (result_ids : List String) (positive_ids negative_ids : List String)
    (text_feedback : Option String) : Session :=
  (add_iteration
    (update_last_iteration_feedback s positive_ids negative_ids text_feedback)
    refined_query "feedback" result_ids positive_ids negative_ids
    text_feedback).1

/-- The session mutation performed by the /feedback/pseudo endpoint (main.py
lines 299-310): add_iteration only; no feedback update of any earlier
iteration is performed. -/
def pseudo_feedback_record (s : Session) (refined_query : Vec)
    (result_ids : List String) : Session :=
  (add_iteration s refined_query "pseudo_feedback" result_ids [] [] none).1

/-- The refined query computed by the /feedback/pseudo endpoint (main.py
lines 265-297): resolve the session, require a last iteration, take the
first top_m of its result ids, resolve their vectors (skipping unknown ids),
fail when none resolve, and apply pseudo relevance feedback to the current
query vector.  None models the HTTP error paths. -/
noncomputable def pseudo_endpoint_query (alpha beta gamma : ℝ) (st : Store)
    (session : Option Session) (top_m : ℕ) : Option Vec :=
  match session with
  | none => none
  | some s =>
    match s.iterations.getLast? with
    | none => none
    | some last =>
      let last_results := last.results.take top_m
      let top_vectors := get_vectors st last_results
      if top_vectors.isEmpty then none
      else some (pseudo_relevance_feedback alpha beta gamma
        last.query_vector top_vectors top_m)

/-- One recorded add_iteration call, for stating the append-only invariant
over arbitrary call sequences. -/
structure AddCall where
  query_vector : Vec
  query_type : String
  results : List String
  positive_feedback : List String
  negative_feedback : List String
  text_feedback : Option String

/-- Run a sequence of add_iteration calls against a session. -/
def run_add_iterations (s : Session) (calls : List AddCall) : Session :=
  calls.foldl (fun acc c =>
    (add_iteration acc c.query_vector c.query_type c.results
      c.positive_feedback c.negative_feedback c.text_feedback).1) s

/-- The contiguous 1-based numbering invariant of a session. -/
def indexInvariant (s : Session) : Prop :=
  ∀ i (h : i < s.iterations.length), (s.iterations.get ⟨i, h⟩).iteration = i + 1

/-! ### Concrete fixtures used by counterexamples and witnesses -/

/-- A store holding one vector under id "A" at slot 0. -/
def storeA : Store :=
  { vecs := [[1, 0]]
    images := [⟨"A", "f", 0, []⟩]
    idToIdx := fun s => if s = "A" then some 0 else none }

/-- A store holding two vectors: id "A" at slot 0 and id "B" at slot 1. -/
def storeAB : Store :=
  { vecs := [[1, 0], [0, 1]]
    images := [⟨"A", "f", 0, []⟩, ⟨"B", "g", 1, []⟩]
    idToIdx := fun s => if s = "A" then some 0 else if s = "B" then some 1 else none }

/-- A session holding a single text iteration whose top result is "A" and
which carries no feedback. -/
def sessionOne : Session :=
  ⟨"s", [{ iteration := 1, query_vector := [1, 0], query_type := "text",
           results := ["A"], positive_feedback := [], negative_feedback := [],
           text_feedback := none }]⟩

/-! ### Helper lemmas -/

theorem smul_smul_eq (a b : ℝ) (v : Vec) : smul a (smul b v) = smul (a * b) v := by
  simp only [smul, List.map_map]
  refine List.map_congr_left ?_
  intro x _
  simp [Function.comp]
  ring

theorem dot_comm (v w : Vec) : dot v w = dot w v := by
  induction v generalizing w with
  | nil => cases w <;> simp [dot]
  | cons x xs ih =>
    cases w with
    | nil => simp [dot]
    | cons y ys =>
      simp only [dot, List.zipWith_cons_cons, List.sum_cons] at *
      rw [mul_comm]
      exact congrArg _ (ih ys)

theorem sumSq_nonneg (v : Vec) : 0 ≤ sumSq v := by
  induction v with
  | nil => simp [sumSq, dot]
  | cons x xs ih =>
    simp only [sumSq, dot, List.zipWith_cons_cons, List.sum_cons] at *
    have := mul_self_nonneg x
    linarith

theorem dot_vsub_smul (q : Vec) (c : ℝ) : ∀ t : Vec, t.length = q.length →
    dot q (vsub t (smul c q)) = dot q t - c * sumSq q := by
  induction q with
  | nil =>
    intro t ht
    simp only [List.length_nil, List.length_eq_zero] at ht
    subst ht
    simp [dot, vsub, smul, sumSq]
  | cons x xs ih =>
    intro t ht
    cases t with
    | nil => simp at ht
    | cons y ys =>
      simp only [List.length_cons, Nat.succ_inj] at ht
      simp only [dot, vsub, smul, sumSq, List.map_cons, List.zipWith_cons_cons,
        List.sum_cons] at *
      have h2 := ih ys ht
      simp only [dot, vsub, smul, sumSq] at h2
      rw [h2]
      ring

/-! ### C1: Rocchio refinement matches the specified formula -/

/-- C1.  Rocchio refinement computes alpha times the query, plus beta times
the mean of the relevant vectors when that set is non-empty, minus gamma
times the mean of the non-relevant vectors when that set is non-empty, and
returns the normalization of this combination; when the pre-normalization
combination has zero norm it is returned unnormalized; and refining with
neither relevant nor non-relevant vectors returns normalize(alpha * query)
for every query vector. -/
theorem rocchio_refine_matches_spec (alpha beta gamma text_weight : ℝ)
    (q : Vec) (rel nonrel : List Vec) :
    refine_query alpha beta gamma q (some rel) (some nonrel) none text_weight
      = normalize (specRocchioPreNorm alpha beta gamma q rel nonrel)
    ∧ (vnorm (specRocchioPreNorm alpha beta gamma q rel nonrel) = 0 →
        refine_query alpha beta gamma q (some rel) (some nonrel) none text_weight
          = specRocchioPreNorm alpha beta gamma q rel nonrel)
    ∧ refine_query alpha beta gamma q none none none text_weight
        = normalize (smul alpha q) := by
  have hmain : refine_query alpha beta gamma q (some rel) (some nonrel) none text_weight
      = normalize (specRocchioPreNorm alpha beta gamma q rel nonrel) := by
    cases rel <;> cases nonrel <;> simp [refine_query, specRocchioPreNorm]
  refine ⟨hmain, ?_, ?_⟩
  · intro hz
    rw [hmain, normalize, if_neg]
    rw [hz]
    exact lt_irrefl 0
  · simp [refine_query]

/-- Witness for C1: the no-feedback identity and the zero-norm degenerate
case, both at the concrete query vector [0, 0]. -/
theorem rocchio_refine_matches_spec_witness :
    refine_query 1 0.75 0.15 ([0, 0] : Vec) none none none 0.3
      = normalize (smul 1 [0, 0])
    ∧ refine_query 1 0.75 0.15 ([0, 0] : Vec) (some []) (some []) none 0.3
      = specRocchioPreNorm 1 0.75 0.15 [0, 0] [] [] := by
  constructor
  · exact (rocchio_refine_matches_spec 1 0.75 0.15 0.3 [0, 0] [] []).2.2
  · refine (rocchio_refine_matches_spec 1 0.75 0.15 0.3 [0, 0] [] []).2.1 ?_
    have : specRocchioPreNorm 1 0.75 0.15 ([0, 0] : Vec) [] [] = [0, 0] := by
      norm_num [specRocchioPreNorm, smul]
    rw [this]
    norm_num [vnorm, sumSq, dot]

/-! ### C7: pseudo-relevance feedback delegates to Rocchio -/

/-- C7.  pseudo_relevance_feedback refines the query with the first
min(top_m, length) of the top vectors as the relevant set and no non-relevant
set; and the pseudo-feedback endpoint, applied to a session with one prior
iteration and top_m = 1, produces exactly refine_query of the original query
with the singleton list of the top result vector. -/
theorem pseudo_feedback_delegates :
    (∀ (alpha beta gamma : ℝ) (q : Vec) (tvs : List Vec) (m : ℕ),
      pseudo_relevance_feedback alpha beta gamma q tvs m
        = refine_query alpha beta gamma q (some (tvs.take m)) none none 0.3)
    ∧ (∀ (alpha beta gamma : ℝ) (st : Store) (sid : String)
        (it : SearchIteration) (idA : String) (vA : Vec),
        it.results.head? = some idA →
        get_vector st idA = some vA →
        pseudo_endpoint_query alpha beta gamma st (some ⟨sid, [it]⟩) 1
          = some (refine_query alpha beta gamma it.query_vector
              (some [vA]) none none 0.3)) := by
  have part1 : ∀ (alpha beta gamma : ℝ) (q : Vec) (tvs : List Vec) (m : ℕ),
      pseudo_relevance_feedback alpha beta gamma q tvs m
        = refine_query alpha beta gamma q (some (tvs.take m)) none none 0.3 := by
    intro alpha beta gamma q tvs m
    by_cases h : m ≤ tvs.length
    · simp [pseudo_relevance_feedback, h]
    · have hle : tvs.length ≤ m := le_of_not_le h
      simp [pseudo_relevance_feedback, h, List.take_of_length_le hle]
  refine ⟨part1, ?_⟩
  intro alpha beta gamma st sid it idA vA hhead hvec
  cases hres : it.results with
  | nil => rw [hres] at hhead; simp at hhead
  | cons a rest =>
    rw [hres] at hhead
    simp only [List.head?_cons, Option.some_inj] at hhead
    subst hhead
    simp only [pseudo_endpoint_query, List.getLast?_singleton, hres,
      List.take_succ_cons, List.take_zero]
    have hv : get_vectors st [a] = [vA] := by
      simp [get_vectors, hvec]
    rw [hv]
    simp only [List.isEmpty_cons, if_false, Bool.false_eq_true]
    rw [part1]
    simp

/-- Witness for C7: the pseudo endpoint applied to a concrete store and a
concrete one-iteration session with top_m = 1. -/
theorem pseudo_feedback_delegates_witness :
    pseudo_endpoint_query 1 0.75 0.15 storeA (some ⟨"s",
        [{ iteration := 1, query_vector := [1, 0], query_type := "text",
           results := ["A"], positive_feedback := [], negative_feedback := [],
           text_feedback := none }]⟩) 1
      = some (refine_query 1 0.75 0.15 [1, 0] (some [[1, 0]]) none none 0.3) :=
  pseudo_feedback_delegates.2 1 0.75 0.15 storeA "s" _ "A" [1, 0]
    (by rfl) (by simp [get_vector, storeA])

/-! ### C9: residual orthogonality -/

/-- C9.  For a unit-norm query q and any text vector t of the same dimension,
the component injected by residual composition, t - (t . q) q, is orthogonal
to q. -/
theorem residual_injected_orthogonal (q t : Vec) (hlen : t.length = q.length)
    (hq : vnorm q = 1) : dot q (residual_injected t q) = 0 := by
  have hsq : sumSq q = 1 := by
    have h0 : 0 ≤ sumSq q := sumSq_nonneg q
    have h1 : Real.sqrt (sumSq q) = 1 := hq
    have := Real.sq_sqrt h0
    rw [h1] at this
    simpa using this.symm
  rw [residual_injected, dot_vsub_smul q (dot t q) t hlen, hsq, dot_comm t q]
  ring

/-- Witness for C9 at q = [1, 0], t = [3, 4]. -/
theorem residual_injected_orthogonal_witness :
    dot [1, 0] (residual_injected [3, 4] [1, 0]) = 0 := by
  refine residual_injected_orthogonal [1, 0] [3, 4] (by simp) ?_
  have : sumSq ([1, 0] : Vec) = 1 := by norm_num [sumSq, dot]
  rw [vnorm, this]
  exact Real.sqrt_one

/-! ### C4: the influence band [0.25, 0.75] is not enforced

The clipped weight lies in [0.5, 2.0], so (w - 1)/2 + 0.5 lies in
[0.25, 1.0]: the upper end of the documented influence band 0.75 is exceeded
whenever the clipped weight is above 1.5, and no clipping of the influence is
performed by the source. -/

/-- C4 evaluated at the failing input temperature = 1, text = [0, 2]: the
attention weight of dimension 1 lies inside the clip band [0.5, 2.0], yet the
per-dimension influence exceeds 0.75, contradicting the documented band
[0.25, 0.75] of both the specification and the inline source comment. -/
theorem attention_influence_escapes_band :
    0.5 ≤ (attention_weights 1 [0, 2]).getD 1 0
    ∧ (attention_weights 1 [0, 2]).getD 1 0 ≤ 2
    ∧ 0.75 < (text_influence 1 [0, 2]).getD 1 0 := by
  have hE3 : (3 : ℝ) < Real.exp 2 := by
    have h := Real.add_one_lt_exp (x := 2) (by norm_num)
    linarith
  have hEpos : (0 : ℝ) < Real.exp 2 := Real.exp_pos 2
  have hsum : (0 : ℝ) < 1 + Real.exp 2 := by linarith
  have hraw : raw_attention_weights 1 [0, 2]
      = [1 / (1 + Real.exp 2) * 2, Real.exp 2 / (1 + Real.exp 2) * 2] := by
    norm_num [raw_attention_weights, Real.exp_zero]
  have hrawband : 1.5 < Real.exp 2 / (1 + Real.exp 2) * 2
      ∧ Real.exp 2 / (1 + Real.exp 2) * 2 < 2 := by
    rw [div_mul_eq_mul_div]
    constructor
    · rw [lt_div_iff₀ hsum]
      linarith
    · rw [div_lt_iff₀ hsum]
      linarith
  have hwval : (attention_weights 1 [0, 2]).getD 1 0
      = Real.exp 2 / (1 + Real.exp 2) * 2 := by
    rw [attention_weights, hraw]
    have hmax : max (Real.exp 2 / (1 + Real.exp 2) * 2) 0.5
        = Real.exp 2 / (1 + Real.exp 2) * 2 :=
      max_eq_left (by norm_num; linarith [hrawband.1])
    have hmin : min (Real.exp 2 / (1 + Real.exp 2) * 2) 2
        = Real.exp 2 / (1 + Real.exp 2) * 2 := min_eq_left hrawband.2.le
    simp only [List.map_cons, List.map_nil, List.getD_cons_succ,
      List.getD_cons_zero, hmax, hmin]
  refine ⟨?_, ?_, ?_⟩
  · rw [hwval]
    norm_num
    linarith [hrawband.1]
  · rw [hwval]
    exact hrawband.2.le
  · have hinfval : (text_influence 1 [0, 2]).getD 1 0
        = ((attention_weights 1 [0, 2]).getD 1 0 - 1) / 2 + 0.5 := by
      have hlw : (attention_weights 1 [0, 2]).length = 2 := by
        simp [attention_weights, hraw]
      have h1w : (1 : ℕ) < (attention_weights 1 [0, 2]).length := by
        rw [hlw]; norm_num
      have h1i : (1 : ℕ) < (text_influence 1 [0, 2]).length := by
        simp only [text_influence, List.length_map]
        rw [hlw]; norm_num
      rw [List.getD_eq_getElem _ _ h1i, List.getD_eq_getElem _ _ h1w]
      simp only [text_influence, List.getElem_map]
    rw [hinfval, hwval]
    norm_num
    linarith [hrawband.1]

/-! ### C8: append-only 1-based iteration numbering -/

theorem add_iteration_preserves_inv (s : Session) (qv : Vec) (qt : String)
    (res : List String) (pos neg : List String) (tf : Option String)
    (h : indexInvariant s) :
    indexInvariant (add_iteration s qv qt res pos neg tf).1 := by
  intro i hi
  simp only [add_iteration, List.length_append, List.length_cons,
    List.length_nil] at hi
  simp only [add_iteration, List.get_eq_getElem]
  by_cases hlt : i < s.iterations.length
  · rw [List.getElem_append_left hlt]
    have := h i hlt
    simpa [List.get_eq_getElem] using this
  · have hieq : i = s.iterations.length := by omega
    subst hieq
    rw [List.getElem_append_right (le_refl _)]
    simp

theorem run_add_iterations_preserves_inv (calls : List AddCall) :
    ∀ s : Session, indexInvariant s → indexInvariant (run_add_iterations s calls) := by
  induction calls with
  | nil => intro s h; simpa [run_add_iterations] using h
  | cons c rest ih =>
    intro s h
    have h1 := add_iteration_preserves_inv s c.query_vector c.query_type
      c.results c.positive_feedback c.negative_feedback c.text_feedback h
    have := ih _ h1
    simpa [run_add_iterations] using this

theorem update_last_feedback_length (s : Session) (pos neg : List String)
    (tf : Option String) :
    (update_last_iteration_feedback s pos neg tf).iterations.length
      = s.iterations.length := by
  by_cases h : s.iterations.isEmpty
  · simp [update_last_iteration_feedback, h]
  · have hne : s.iterations ≠ [] := by simpa [List.isEmpty_iff] using h
    have hpos : 1 ≤ s.iterations.length := List.length_pos.mpr hne
    simp only [update_last_iteration_feedback, h, Bool.false_eq_true, if_false,
      List.length_append, List.length_dropLast, List.length_cons, List.length_nil]
    omega

/-- C8.  After any sequence of add_iteration calls on a fresh session, the
i-th stored iteration carries number i + 1 (contiguous, gap-free, 1-based),
and update_last_iteration_feedback never changes the number of iterations. -/
theorem session_numbering_invariant (sid : String) (calls : List AddCall) :
    indexInvariant (run_add_iterations (empty_session sid) calls)
    ∧ ∀ (s : Session) (pos neg : List String) (tf : Option String),
      (update_last_iteration_feedback s pos neg tf).iterations.length
        = s.iterations.length := by
  constructor
  · refine run_add_iterations_preserves_inv calls (empty_session sid) ?_
    intro i hi
    simp [empty_session] at hi
  · intro s pos neg tf
    exact update_last_feedback_length s pos neg tf

/-- Witness for C8: one recorded call on a fresh session; its single
iteration carries number 1, and a feedback update leaves the length at 1. -/
theorem session_numbering_invariant_witness :
    ((run_add_iterations (empty_session "w") [⟨[1, 0], "text", ["A"], [], [], none⟩]).iterations.get
        ⟨0, by simp [run_add_iterations, add_iteration, empty_session]⟩).iteration = 0 + 1
    ∧ (update_last_iteration_feedback sessionOne ["A"] [] none).iterations.length
        = sessionOne.iterations.length := by
  constructor
  · exact (session_numbering_invariant "w" [⟨[1, 0], "text", ["A"], [], [], none⟩]).1 0
      (by simp [run_add_iterations, add_iteration, empty_session])
  · exact (session_numbering_invariant "w" []).2 sessionOne ["A"] [] none

/-! ### C5: which rounds backfill the preceding iteration -/

/-- C5 counterexample: a pseudo-feedback round on a one-iteration session
leaves the preceding iteration entirely unchanged — its feedback fields stay
empty, so no backfill of the preceding iteration happens on pseudo rounds. -/
theorem pseudo_round_does_not_backfill :
    (pseudo_feedback_record sessionOne [1, 0] ["A"]).iterations.getD 0 default
      = { iteration := 1, query_vector := [1, 0], query_type := "text",
          results := ["A"], positive_feedback := [], negative_feedback := [],
          text_feedback := none }
    ∧ ((pseudo_feedback_record sessionOne [1, 0] ["A"]).iterations.getD 0
        default).positive_feedback = [] := by
  constructor <;> rfl

/-- C5 as amended.  An explicit relevance-feedback round backfills the
feedback fields of the iteration that preceded it (the source performs the
backfill just before recording the new iteration, so it lands on the
then-last iteration); a pseudo-feedback round performs no backfill at all:
it appends its new iteration and leaves every earlier iteration unchanged. -/
theorem feedback_round_backfills_preceding (s : Session)
    (hne : s.iterations ≠ []) (rq : Vec) (rids pos neg : List String)
    (tf : Option String) :
    (relevance_feedback_record s rq rids pos neg tf).iterations.length
      = s.iterations.length + 1
    ∧ ((relevance_feedback_record s rq rids pos neg tf).iterations.getD
        (s.iterations.length - 1) default).positive_feedback = pos
    ∧ ((relevance_feedback_record s rq rids pos neg tf).iterations.getD
        (s.iterations.length - 1) default).negative_feedback = neg
    ∧ ((relevance_feedback_record s rq rids pos neg tf).iterations.getD
        (s.iterations.length - 1) default).text_feedback = tf
    ∧ (pseudo_feedback_record s rq rids).iterations.take s.iterations.length
        = s.iterations
    ∧ (pseudo_feedback_record s rq rids).iterations.length
        = s.iterations.length + 1 := by
  have hpos : 1 ≤ s.iterations.length := List.length_pos.mpr hne
  have hemp : s.iterations.isEmpty = false := by
    simpa [List.isEmpty_iff] using hne
  have hinner : (update_last_iteration_feedback s pos neg tf).iterations
      = s.iterations.dropLast ++
        [{ s.iterations.getLastD default with
            positive_feedback := pos
            negative_feedback := neg
            text_feedback := tf }] := by
    simp [update_last_iteration_feedback, hemp]
  have hrel : (relevance_feedback_record s rq rids pos neg tf).iterations
      = (update_last_iteration_feedback s pos neg tf).iterations ++
        [{ iteration := (update_last_iteration_feedback s pos neg tf).iterations.length + 1
           query_vector := rq
           query_type := "feedback"
           results := rids
           positive_feedback := pos
           negative_feedback := neg
           text_feedback := tf }] := by
    simp [relevance_feedback_record, add_iteration]
  have hinlen : (update_last_iteration_feedback s pos neg tf).iterations.length
      = s.iterations.length := update_last_feedback_length s pos neg tf
  have hlen : (relevance_feedback_record s rq rids pos neg tf).iterations.length
      = s.iterations.length + 1 := by
    rw [hrel, List.length_append, hinlen]
    simp
  have hmid : (relevance_feedback_record s rq rids pos neg tf).iterations.getD
      (s.iterations.length - 1) default
      = { s.iterations.getLastD default with
          positive_feedback := pos
          negative_feedback := neg
          text_feedback := tf } := by
    have hb2 : s.iterations.length - 1
        < (update_last_iteration_feedback s pos neg tf).iterations.length := by
      rw [hinlen]; omega
    rw [hrel, List.getD_append _ _ _ _ hb2, hinner]
    have hb3 : s.iterations.dropLast.length ≤ s.iterations.length - 1 := by
      rw [List.length_dropLast]
    rw [List.getD_append_right _ _ _ _ hb3, List.length_dropLast]
    simp
  refine ⟨hlen, ?_, ?_, ?_, ?_, ?_⟩
  · rw [hmid]
  · rw [hmid]
  · rw [hmid]
  · simp [pseudo_feedback_record, add_iteration, List.take_left]
  · simp [pseudo_feedback_record, add_iteration]

/-- Witness for C5 as amended, on the concrete one-iteration session. -/
theorem feedback_round_backfills_preceding_witness :
    ((relevance_feedback_record sessionOne [0, 1] ["B"] ["A"] [] (some "navy")).iterations.getD
        0 default).positive_feedback = ["A"]
    ∧ (pseudo_feedback_record sessionOne [0, 1] ["B"]).iterations.take 1
        = sessionOne.iterations := by
  have h := feedback_round_backfills_preceding sessionOne (by simp [sessionOne])
    [0, 1] ["B"] ["A"] [] (some "navy")
  have h2 := feedback_round_backfills_preceding sessionOne (by simp [sessionOne])
    [0, 1] ["B"] [] [] none
  exact ⟨h.2.1, h2.2.2.2.2.1⟩

/-! ### C6: trajectory projection degenerate cases -/

theorem enum_map_fst_add_one (l : List (ℝ × ℝ)) :
    l.enum.map (fun p => p.1 + 1) = List.range' 1 l.length := by
  have h1 : l.enum.map (fun p => p.1 + 1)
      = (l.enum.map Prod.fst).map (fun x => x + 1) := by
    rw [List.map_map]
    rfl
  rw [h1, List.enum_map_fst, List.range'_eq_map_range]
  refine List.map_congr_left ?_
  intro x _
  omega

/-- C6 counterexample: a session with zero iterations yields the empty list,
not a single point at the origin. -/
theorem zero_iteration_trajectory_is_empty :
    get_query_vectors_2d (fun _ qvs => qvs.map (fun _ => (0, 0)))
        (some (empty_session "e")) none = []
    ∧ ([] : List (ℝ × ℝ × ℕ)) ≠ [(0, 0, 1)] := by
  constructor
  · rfl
  · simp

/-- C6 as amended.  A session with zero iterations projects to the empty
list; with exactly one iteration it projects to the single origin point
labelled 1, for every reducer (so the reducer is never consulted); with two
or more iterations, under the reducer contract of one output point per
projected vector, it yields one point per iteration labelled 1, 2, ... in
iteration order. -/
theorem trajectory_projection_cases
    (reducer : List Vec → List Vec → List (ℝ × ℝ))
    (refv : Option (List Vec)) (s : Session) :
    (s.iterations = [] → get_query_vectors_2d reducer (some s) refv = [])
    ∧ (s.iterations.length = 1 →
        get_query_vectors_2d reducer (some s) refv = [(0, 0, 1)])
    ∧ (2 ≤ s.iterations.length →
        (∀ fit ts, (reducer fit ts).length = ts.length) →
        (get_query_vectors_2d reducer (some s) refv).length = s.iterations.length
        ∧ (get_query_vectors_2d reducer (some s) refv).map (fun p => p.2.2)
            = List.range' 1 s.iterations.length) := by
  refine ⟨?_, ?_, ?_⟩
  · intro h
    simp [get_query_vectors_2d, h]
  · intro h
    have hne : s.iterations.isEmpty = false := by
      cases hc : s.iterations with
      | nil => rw [hc] at h; simp at h
      | cons a l => simp [hc]
    simp [get_query_vectors_2d, hne, h]
  · intro h2 hr
    have hne : s.iterations.isEmpty = false := by
      cases hc : s.iterations with
      | nil => rw [hc] at h2; simp at h2
      | cons a l => simp [hc]
    have hnlt : ¬ ((s.iterations.map (fun it => it.query_vector)).length < 2) := by
      rw [List.length_map]; omega
    simp only [get_query_vectors_2d, hne, Bool.false_eq_true, if_false, hnlt]
    constructor
    · rw [List.length_map, List.enum_length, hr, List.length_map]
    · rw [List.map_map]
      have hcomp : ((fun p : ℝ × ℝ × ℕ => p.2.2) ∘
          (fun p : ℕ × (ℝ × ℝ) => (p.2.1, p.2.2, p.1 + 1)))
          = fun p : ℕ × (ℝ × ℝ) => p.1 + 1 := by
        funext p
        rfl
      rw [hcomp, enum_map_fst_add_one, hr, List.length_map]

/-- Witness for C6 as amended: the one-iteration and two-iteration cases on
concrete sessions, with a concrete reducer satisfying the contract. -/
theorem trajectory_projection_cases_witness :
    get_query_vectors_2d (fun _ qvs => qvs.map (fun _ => (0, 0)))
        (some sessionOne) none = [(0, 0, 1)]
    ∧ (get_query_vectors_2d (fun _ qvs => qvs.map (fun _ => (0, 0)))
        (some ⟨"t", [default, default]⟩) none).map (fun p => p.2.2)
        = List.range' 1 2 := by
  constructor
  · exact (trajectory_projection_cases (fun _ qvs => qvs.map (fun _ => (0, 0)))
      none sessionOne).2.1 (by simp [sessionOne])
  · exact ((trajectory_projection_cases (fun _ qvs => qvs.map (fun _ => (0, 0)))
      none ⟨"t", [default, default]⟩).2.2 (by simp)
      (fun fit ts => by simp)).2

/-! ### C2: duplicate ids on insert -/

theorem assignSlots_not_mem (pairs : List (String × String)) :
    ∀ (m : String → Option ℕ) (start : ℕ) (s : String),
    s ∉ pairs.map Prod.fst → assignSlots m pairs start s = m s := by
  induction pairs with
  | nil => intro m start s _; rfl
  | cons p rest ih =>
    intro m start s h
    obtain ⟨k, v⟩ := p
    simp only [List.map_cons, List.mem_cons, not_or] at h
    obtain ⟨h1, h2⟩ := h
    simp only [assignSlots]
    rw [ih _ _ _ h2, if_neg h1]

theorem assignSlots_get (pairs : List (String × String)) :
    ∀ (m : String → Option ℕ) (start : ℕ),
    (pairs.map Prod.fst).Nodup →
    ∀ i (h : i < pairs.length),
    assignSlots m pairs start (pairs.get ⟨i, h⟩).1 = some (start + i) := by
  induction pairs with
  | nil => intro m start _ i h; simp at h
  | cons p rest ih =>
    intro m start hnd i h
    obtain ⟨k, v⟩ := p
    simp only [List.map_cons, List.nodup_cons] at hnd
    obtain ⟨hk, hrest⟩ := hnd
    cases i with
    | zero =>
      simp only [assignSlots, List.get]
      rw [assignSlots_not_mem rest _ _ k hk]
      simp
    | succ j =>
      simp only [assignSlots, List.get]
      have hj : j < rest.length := by simpa using h
      have := ih (fun s => if s = k then some start else m s) (start + 1) hrest j hj
      rw [this]
      congr 1
      omega

/-- C2 counterexample: inserting a batch whose id "A" already exists in the
store is not rejected — the batch is appended (the images list grows) and
the id-to-slot mapping of "A" is silently overwritten from slot 0 to the new
slot 1. -/
theorem duplicate_insert_not_rejected :
    (add_vectors storeA [[0, 1]] ["A"] ["g"] none).images.length = 2
    ∧ storeA.images.length = 1
    ∧ (add_vectors storeA [[0, 1]] ["A"] ["g"] none).idToIdx "A" = some 1
    ∧ storeA.idToIdx "A" = some 0 := by
  refine ⟨?_, rfl, ?_, ?_⟩
  · simp [add_vectors, makeEntries, storeA]
  · simp [add_vectors, assignSlots, storeA]
  · simp [storeA]

/-- C2 as amended.  add_vectors performs no duplicate-id check whatsoever:
every batch is appended unconditionally (the vector list grows by the batch
size and the images list by the number of (id, filename) pairs), ids outside
the batch keep their previous slot mapping, and every id inside the batch has
its mapping set to its new slot — silently overwriting any existing mapping
for that id.  The stale vector remains stored but becomes unreachable by id. -/
theorem add_vectors_never_rejects (st : Store) (vectors : List Vec)
    (image_ids filenames : List String)
    (metadata_list : Option (List (List (String × String)))) :
    (add_vectors st vectors image_ids filenames metadata_list).vecs.length
      = st.vecs.length + vectors.length
    ∧ (add_vectors st vectors image_ids filenames metadata_list).images.length
      = st.images.length + min image_ids.length filenames.length
    ∧ (∀ s, s ∉ image_ids →
        (add_vectors st vectors image_ids filenames metadata_list).idToIdx s
          = st.idToIdx s)
    ∧ (image_ids.Nodup → image_ids.length ≤ filenames.length →
        ∀ i (h : i < image_ids.length),
        (add_vectors st vectors image_ids filenames metadata_list).idToIdx
            (image_ids.get ⟨i, h⟩)
          = some (st.vecs.length + i)) := by
  refine ⟨?_, ?_, ?_, ?_⟩
  · simp [add_vectors]
  · simp [add_vectors, makeEntries, List.length_zip]
  · intro s hs
    simp only [add_vectors]
    apply assignSlots_not_mem
    intro hmem
    rw [List.mem_map] at hmem
    obtain ⟨p, hp, hps⟩ := hmem
    exact hs (hps ▸ (List.of_mem_zip hp).1)
  · intro hnd hle i h
    simp only [add_vectors]
    have hlenz : (image_ids.zip filenames).length = image_ids.length := by
      rw [List.length_zip]; omega
    have hzi : i < (image_ids.zip filenames).length := by omega
    have hfst : (image_ids.zip filenames).map Prod.fst = image_ids :=
      List.map_fst_zip _ _ hle
    have hget : ((image_ids.zip filenames).get ⟨i, hzi⟩).1 = image_ids.get ⟨i, h⟩ := by
      simp [List.get_eq_getElem, List.getElem_zip]
    rw [← hget]
    apply assignSlots_get
    rw [hfst]
    exact hnd

/-- Witness for C2 as amended at a concrete store and batch. -/
theorem add_vectors_never_rejects_witness :
    (add_vectors storeA [[0, 1]] ["A"] ["g"] none).vecs.length
      = storeA.vecs.length + 1
    ∧ (add_vectors storeA [[0, 1]] ["A"] ["g"] none).idToIdx "A"
      = some (storeA.vecs.length + 0)
    ∧ (add_vectors storeA [[0, 1]] ["A"] ["g"] none).idToIdx "Z"
      = storeA.idToIdx "Z" := by
  have h := add_vectors_never_rejects storeA [[0, 1]] ["A"] ["g"] none
  refine ⟨?_, ?_, ?_⟩
  · simpa using h.1
  · have := h.2.2.2 (by simp) (by simp) 0 (by simp)
    simpa using this
  · exact h.2.2.1 "Z" (by simp)

/-! ### C3: search result count and ordering -/

theorem searchScored_length (st : Store) (q : Vec) :
    (searchScored st q).length = st.vecs.length := by
  simp [searchScored]

theorem searchScored_fst_lt (st : Store) (q : Vec) :
    ∀ p ∈ searchScored st q, p.1 < st.vecs.length := by
  intro p hp
  simp only [searchScored, List.mem_map, List.mem_range] at hp
  obtain ⟨i, hi, hpi⟩ := hp
  rw [← hpi]
  exact hi

theorem searchRanked_length (st : Store) (q : Vec) (top_k : ℕ) :
    (searchRanked st q top_k).length = min top_k st.vecs.length := by
  simp only [searchRanked, List.length_take, List.length_mergeSort,
    searchScored_length]
  omega

theorem searchKept_eq_ranked (st : Store) (q : Vec) (top_k : ℕ)
    (himg : st.vecs.length ≤ st.images.length) :
    searchKept st q top_k = searchRanked st q top_k := by
  apply List.filter_eq_self.mpr
  intro p hp
  have hmem : p ∈ searchScored st q :=
    List.mem_mergeSort.mp (List.mem_of_mem_take hp)
  have := searchScored_fst_lt st q p hmem
  simp only [decide_eq_true_iff]
  omega

theorem searchRanked_pairwise (st : Store) (q : Vec) (top_k : ℕ) :
    List.Pairwise (fun a b : ℕ × ℝ => b.2 ≤ a.2) (searchRanked st q top_k) := by
  have htrans : ∀ a b c : ℕ × ℝ, (fun x y : ℕ × ℝ => decide (y.2 ≤ x.2)) a b = true →
      (fun x y : ℕ × ℝ => decide (y.2 ≤ x.2)) b c = true →
      (fun x y : ℕ × ℝ => decide (y.2 ≤ x.2)) a c = true := by
    intro a b c hab hbc
    simp only [decide_eq_true_iff] at *
    exact le_trans hbc hab
  have htotal : ∀ a b : ℕ × ℝ, ((fun x y : ℕ × ℝ => decide (y.2 ≤ x.2)) a b
      || (fun x y : ℕ × ℝ => decide (y.2 ≤ x.2)) b a) = true := by
    intro a b
    simp only [Bool.or_eq_true, decide_eq_true_iff]
    exact le_total b.2 a.2
  have hs := @List.sorted_mergeSort (ℕ × ℝ)
    (fun x y : ℕ × ℝ => decide (y.2 ≤ x.2)) htrans htotal (searchScored st q)
  have hsub : (searchRanked st q top_k).Sublist
      ((searchScored st q).mergeSort (fun x y : ℕ × ℝ => decide (y.2 ≤ x.2))) :=
    List.take_sublist _ _
  refine (List.Pairwise.sublist hsub hs).imp ?_
  intro a b h
  simpa using h

/-- C3.  For every store whose metadata covers its vectors, search(q, k)
returns exactly min(k, totalCount) results — ids, scores and metadata rows
alike — with the scores non-increasing; on an empty collection it returns
the empty result triple for every query and every k. -/
theorem search_count_and_sorted (st : Store) (q : Vec) (k : ℕ)
    (himg : st.images.length = st.vecs.length) :
    (search st q k).1.length = min k st.vecs.length
    ∧ (search st q k).2.1.length = min k st.vecs.length
    ∧ (search st q k).2.2.length = min k st.vecs.length
    ∧ List.Sorted (· ≥ ·) (search st q k).2.1
    ∧ (st.vecs.length = 0 → search st q k = ([], [], [])) := by
  by_cases hz : st.vecs.length = 0
  · refine ⟨?_, ?_, ?_, ?_, fun _ => ?_⟩ <;>
      simp [search, hz, List.Sorted]
  · have hkept : ∀ qn, searchKept st qn k = searchRanked st qn k :=
      fun qn => searchKept_eq_ranked st qn k (le_of_eq himg.symm)
    have hlen : ∀ qn, (searchKept st qn k).length = min k st.vecs.length :=
      fun qn => by rw [hkept qn, searchRanked_length]
    have hsorted : ∀ qn, List.Sorted (· ≥ ·)
        ((searchKept st qn k).map (fun p => p.2)) := by
      intro qn
      rw [hkept qn]
      refine List.Pairwise.map _ ?_ (searchRanked_pairwise st qn k)
      intro a b h
      exact h
    refine ⟨?_, ?_, ?_, ?_, fun h0 => absurd h0 hz⟩ <;>
      simp only [search, if_neg hz, List.length_map] <;>
      first
        | exact hlen _
        | exact hsorted _

/-- Witness for C3 at a concrete two-vector store. -/
theorem search_count_and_sorted_witness :
    (search storeAB [1, 0] 1).1.length = min 1 storeAB.vecs.length
    ∧ List.Sorted (· ≥ ·) (search storeAB [1, 0] 1).2.1 :=
  ⟨(search_count_and_sorted storeAB [1, 0] 1 (by simp [storeAB])).1,
   (search_count_and_sorted storeAB [1, 0] 1 (by simp [storeAB])).2.2.2.1⟩

/-! ### C10: search is invariant under positive scaling of the query -/

theorem sumSq_smul (c : ℝ) (v : Vec) : sumSq (smul c v) = c ^ 2 * sumSq v := by
  induction v with
  | nil => simp [sumSq, dot, smul]
  | cons x xs ih =>
    simp only [sumSq, dot, smul, List.map_cons, List.zipWith_cons_cons,
      List.sum_cons] at *
    rw [ih]
    ring

theorem vnorm_smul_nonneg (c : ℝ) (v : Vec) (hc : 0 ≤ c) :
    vnorm (smul c v) = c * vnorm v := by
  rw [vnorm, vnorm, sumSq_smul, Real.sqrt_mul (sq_nonneg c), Real.sqrt_sq hc]

/-- C10.  For a non-empty collection, a nonzero query and a positive scalar
c, search with c * q returns exactly the same ids, scores and metadata as
search with q: the query is re-normalized before ranking, and the
normalizations of c * q and q coincide. -/
theorem search_scale_invariant (st : Store) (q : Vec) (k : ℕ) (c : ℝ)
    (hc : 0 < c) (hne : 0 < st.vecs.length) (hq : vnorm q ≠ 0) :
    search st (smul c q) k = search st q k := by
  have hkey : smul (vnorm (smul c q))⁻¹ (smul c q) = smul (vnorm q)⁻¹ q := by
    rw [vnorm_smul_nonneg c q hc.le, smul_smul_eq, mul_inv_rev, mul_assoc,
      inv_mul_cancel₀ (ne_of_gt hc), mul_one]
  simp only [search]
  rw [hkey]

/-- Witness for C10: scaling the query [1, 0] by 2 over the two-vector
store. -/
theorem search_scale_invariant_witness :
    search storeAB (smul 2 [1, 0]) 1 = search storeAB [1, 0] 1 := by
  refine search_scale_invariant storeAB [1, 0] 1 2 (by norm_num)
    (by simp [storeAB]) ?_
  have h1 : sumSq ([1, 0] : Vec) = 1 := by norm_num [sumSq, dot]
  rw [vnorm, h1, Real.sqrt_one]
  norm_num

end WearSearch
